import Mathlib

/-!
Shallow embedding of the SwitchHive fall-detection core
(`hokudai_fall/logic.py`, `hokudai_fall/main.py`, `hokudai_fall/utils.py`)
over exact rational arithmetic (Python floats are idealised as `ℚ`;
`time.time()` is passed in explicitly as a rational `now`).
-/

set_option allowUnsafeReducibility true in
attribute [semireducible] Rat.mul Rat.add Rat.inv Rat.sub Rat.div

/-- Python `int(q)`: truncation toward zero. -/
def pyInt (q : ℚ) : ℤ := if q < 0 then ⌈q⌉ else ⌊q⌋

/-- Python slice `l[-n:]` for a non-negative `n`: for `n = 0` the slice
`[-0:]` is `[0:]`, i.e. the whole list; otherwise the last `min n (length l)`
elements. -/
def pySliceLast {α : Type} (n : ℕ) (l : List α) : List α :=
  if n = 0 then l else l.drop (l.length - n)

/-- `collections.deque(maxlen := m).append`: append on the right, dropping
from the left when the capacity is exceeded. -/
def dequeAppend {α : Type} (maxlen : ℕ) (l : List α) (x : α) : List α :=
  let l2 := l ++ [x]
  if maxlen < l2.length then l2.drop (l2.length - maxlen) else l2

/-- Python `min(iterable)` with a default for the empty list (the default is
never reached at the call sites, which guard for non-emptiness). -/
def listMinD (d : ℚ) (l : List ℚ) : ℚ :=
  match l with
  | [] => d
  | x :: xs => xs.foldl min x

/-- Python `max(iterable)` with a default for the empty list. -/
def listMaxD (d : ℚ) (l : List ℚ) : ℚ :=
  match l with
  | [] => d
  | x :: xs => xs.foldl max x

/-- Insert into an ascending-sorted list, keeping it sorted. -/
def insertAsc (x : ℚ) : List ℚ → List ℚ
  | [] => [x]
  | y :: ys => if x ≤ y then x :: y :: ys else y :: insertAsc x ys

/-- Insertion sort, ascending (the sort inside `numpy.percentile`). -/
def sortAsc (l : List ℚ) : List ℚ := l.foldr insertAsc []

/-- `numpy.percentile(l, 80)` with the default linear interpolation:
virtual position `(n-1) * 80/100` into the sorted data, linearly
interpolated between the two neighbouring order statistics. -/
def percentile80 (l : List ℚ) : ℚ :=
  let s := sortAsc l
  let pos : ℚ := ((s.length : ℚ) - 1) * (4 / 5)
  let i : ℕ := (⌊pos⌋).toNat
  match s.get? i with
  | none => 0
  | some a =>
    match s.get? (i + 1) with
    | none => a
    | some b => a + (pos - (i : ℚ)) * (b - a)

/-- `pose.Keypoint`: pixel coordinates and a confidence score. -/
structure Keypoint where
  x : ℚ
  y : ℚ
  score : ℚ
deriving DecidableEq

/-- `pose.PoseResult`: keypoint list, integer bbox `(x, y, w, h)`, aggregate
score.  The image payload is irrelevant to the logic and omitted. -/
structure PoseResult where
  keypoints : List Keypoint
  bbox : ℤ × ℤ × ℤ × ℤ
  score : ℚ
deriving DecidableEq

/-- `logic.Features`. -/
structure Features where
  theta : ℚ
  ratio : ℚ
  hip_y : ℚ
  h_person : ℚ
deriving DecidableEq

/-- `logic.TriggerSnapshot`. -/
structure TriggerSnapshot where
  theta_max : ℚ
  ratio_min : ℚ
  hip_drop : ℚ
  still_score : ℚ
deriving DecidableEq

/-- `config.DetectionConfig` (the `int`-typed fields are embedded in `ℚ`,
their values are integers). -/
structure DetectionConfig where
  min_conf_joints : ℚ
  angle_deg_th : ℚ
  ratio_th : ℚ
  T_pose_sec : ℚ
  hip_drop_px_th : ℚ
  T_drop_sec : ℚ
  T_still_sec : ℚ
  v_still_px_per_frame : ℚ
  min_person_height_px : ℚ
  cooldown_sec : ℚ
  C_grace_sec : ℚ
deriving DecidableEq

/-- The two FSM modes of `logic.FallLogicFSM.state`. -/
inductive FsmMode where
  | idle
  | awaitStill
deriving DecidableEq

/-- The mutable state of `logic.FallLogicFSM`. -/
structure FallLogicFSM where
  cfg : DetectionConfig
  infer_fps : ℚ
  historyMax : ℕ
  history : List Features
  cooldown_until : ℚ
  state : FsmMode
  prelim_hist_len : ℕ
  still_deadline : ℚ
  pre_theta_max : ℚ
  pre_ratio_min : ℚ
  pre_hip_drop : ℚ
deriving DecidableEq

/-- `FallLogicFSM.__init__`: the history deque capacity is
`int(max(3, (T_pose + T_still + T_drop) * inference_fps + 5))`. -/
def FallLogicFSM.init (cfg : DetectionConfig) (inference_fps : ℚ) : FallLogicFSM :=
  { cfg := cfg
    infer_fps := inference_fps
    historyMax :=
      (pyInt (max 3 ((cfg.T_pose_sec + cfg.T_still_sec + cfg.T_drop_sec) * inference_fps + 5))).toNat
    history := []
    cooldown_until := 0
    state := .idle
    prelim_hist_len := 0
    still_deadline := 0
    pre_theta_max := 0
    pre_ratio_min := 10 ^ 9
    pre_hip_drop := 0 }

/-- `FallLogicFSM._center`. -/
def center (a b : Keypoint) : ℚ × ℚ := ((a.x + b.x) / 2, (a.y + b.y) / 2)

/-- `FallLogicFSM._compute_features`, parametric in the external
`degrees ∘ atan2` (an opaque real function; only the code's outer `abs`
matters to the claims).  Indices 11, 12, 23, 24; the `IndexError` branch
corresponds to a keypoint list of length at most 24. -/
def computeFeatures (atan2deg : ℚ → ℚ → ℚ) (pose : PoseResult) : Option Features :=
  let kps := pose.keypoints
  if h24 : 24 < kps.length then
    let ls := kps.get ⟨11, by omega⟩
    let rs := kps.get ⟨12, by omega⟩
    let lh := kps.get ⟨23, by omega⟩
    let rh := kps.get ⟨24, by omega⟩
    if min ls.score (min rs.score (min lh.score rh.score)) < 1 / 5 then none
    else
      let sc := center ls rs
      let hc := center lh rh
      let vx := hc.1 - sc.1
      let vy := hc.2 - sc.2
      let angle := |atan2deg vx vy|
      let w := pose.bbox.2.2.1
      let h := pose.bbox.2.2.2
      let ratio := (h : ℚ) / max 1 (w : ℚ)
      some { theta := angle, ratio := ratio, hip_y := hc.2, h_person := (h : ℚ) }
  else none

/-- Predicate A (sustained collapsed posture), lines 94–98 of `logic.py`:
false while the history is shorter than `n_pose`, otherwise all of the last
`n_pose` entries satisfy `theta > angle_deg_th` or `ratio < ratio_th`. -/
def predA (cfg : DetectionConfig) (fps : ℚ) (hist : List Features) : Bool :=
  let n_pose := pyInt (cfg.T_pose_sec * fps)
  decide ((hist.length : ℤ) ≥ n_pose) &&
    (pySliceLast n_pose.toNat hist).all
      (fun f => decide (f.theta > cfg.angle_deg_th) || decide (f.ratio < cfg.ratio_th))

/-- The `hip_drop` value of lines 101–111 of `logic.py`: current `hip_y`
minus the minimum `hip_y` of the earlier entries of the last
`max(2, min(|hist|, n_drop+1))`-entry window; `0` while the history has
fewer than two entries. -/
def hipDropOf (cfg : DetectionConfig) (fps : ℚ) (hist : List Features) : ℚ :=
  let n_drop := pyInt (cfg.T_drop_sec * fps)
  if 2 ≤ hist.length then
    let window_len := max 2 (min hist.length (n_drop.toNat + 1))
    let window := pySliceLast window_len hist
    let cur := window.getLastD ⟨0, 0, 0, 0⟩
    cur.hip_y - listMinD 0 (window.dropLast.map (fun f => f.hip_y))
  else 0

/-- Predicate B (rapid hip drop), line 112 of `logic.py`. -/
def predB (cfg : DetectionConfig) (fps : ℚ) (hist : List Features) : Bool :=
  decide (2 ≤ hist.length) && decide (hipDropOf cfg fps hist > cfg.hip_drop_px_th)

/-- Predicate D (minimum person height on the current entry), line 115 of
`logic.py`. -/
def predD (cfg : DetectionConfig) (hist : List Features) : Bool :=
  decide ((hist.getLastD ⟨0, 0, 0, 0⟩).h_person ≥ cfg.min_person_height_px)

/-- The stillness segment of lines 135–136 of `logic.py`:
`seg = (history[-since:])[-n_still-1:]`. -/
def segC (since n_still : ℕ) (hist : List Features) : List Features :=
  pySliceLast (n_still + 1) (pySliceLast since hist)

/-- First differences of `hip_y` over a segment, line 137 of `logic.py`. -/
def diffsOf (seg : List Features) : List ℚ :=
  (seg.zip seg.tail).map (fun ab => |ab.2.hip_y - ab.1.hip_y|)

/-- Lines 135–145 of `logic.py`: the `(still_score, C)` pair.  Empty diffs
give `(0, true)`; otherwise `C` compares the 80th percentile against
`1.2 * v_still_px_per_frame` and the fraction of small diffs against 0.7. -/
def stillStats (cfg : DetectionConfig) (since n_still : ℕ) (hist : List Features) : ℚ × Bool :=
  let diffs := diffsOf (segC since n_still hist)
  if diffs.isEmpty then (0, true)
  else
    let q80 := percentile80 diffs
    let frac_ok : ℚ := ((diffs.countP (fun d => decide (d ≤ cfg.v_still_px_per_frame))) : ℚ) / (diffs.length : ℚ)
    (q80, decide (q80 < cfg.v_still_px_per_frame * (6 / 5)) && decide (frac_ok ≥ 7 / 10))

/-- Lines 74–80 of `logic.py`: the cooldown branch still appends computable
features to the history and changes nothing else. -/
def cooldownStep (atan2deg : ℚ → ℚ → ℚ) (s : FallLogicFSM) (pose : Option PoseResult) : FallLogicFSM :=
  match pose with
  | none => s
  | some p =>
    match computeFeatures atan2deg p with
    | none => s
    | some ft => { s with history := dequeAppend s.historyMax s.history ft }

/-- Lines 88–160 of `logic.py`: the body of `update` after the cooldown
check, for a pose whose features computed successfully. -/
def updateTick (s : FallLogicFSM) (now : ℚ) (ft : Features) :
    FallLogicFSM × Bool × Option TriggerSnapshot :=
  let hist := dequeAppend s.historyMax s.history ft
  let s1 := { s with history := hist }
  let cfg := s.cfg
  let fps := max s.infer_fps 1
  let A := predA cfg fps hist
  let hip_drop := hipDropOf cfg fps hist
  let B := predB cfg fps hist
  let D := predD cfg hist
  let n_still := pyInt (cfg.T_still_sec * fps)
  match s.state with
  | .idle =>
    if A && B && D then
      ({ s1 with
          state := .awaitStill
          prelim_hist_len := hist.length
          still_deadline := now + cfg.T_still_sec + cfg.C_grace_sec
          pre_theta_max := listMaxD 0 (hist.map (fun f => f.theta))
          pre_ratio_min := listMinD 0 (hist.map (fun f => f.ratio))
          pre_hip_drop := hip_drop }, false, none)
    else (s1, false, none)
  | .awaitStill =>
    let since : ℤ := (hist.length : ℤ) - (s.prelim_hist_len : ℤ)
    if since ≥ n_still then
      let sc := stillStats cfg since.toNat n_still.toNat hist
      if sc.2 && D then
        ({ s1 with state := .idle, cooldown_until := now + cfg.cooldown_sec }, true,
          some { theta_max := s.pre_theta_max
                 ratio_min := s.pre_ratio_min
                 hip_drop := s.pre_hip_drop
                 still_score := sc.1 })
      else if now > s.still_deadline then ({ s1 with state := .idle }, false, none)
      else (s1, false, none)
    else if now > s.still_deadline then ({ s1 with state := .idle }, false, none)
    else (s1, false, none)

/-- Lines 82–160 of `logic.py`: the non-cooldown part of `update`. -/
def updateActive (atan2deg : ℚ → ℚ → ℚ) (s : FallLogicFSM) (now : ℚ)
    (pose : Option PoseResult) : FallLogicFSM × Bool × Option TriggerSnapshot :=
  match pose with
  | none => (s, false, none)
  | some p =>
    match computeFeatures atan2deg p with
    | none => (s, false, none)
    | some ft => updateTick s now ft

/-- `FallLogicFSM.update` (`logic.py` lines 72–160); `now` stands for
`time.time()`. -/
def FallLogicFSM.update (atan2deg : ℚ → ℚ → ℚ) (s : FallLogicFSM) (now : ℚ)
    (pose : Option PoseResult) : FallLogicFSM × Bool × Option TriggerSnapshot :=
  if now < s.cooldown_until then (cooldownStep atan2deg s pose, false, none)
  else updateActive atan2deg s now pose

/-- A run of the FSM over a list of `(time, pose)` ticks, recording for each
tick the state before the tick, the state after it, and whether it
triggered. -/
def runFSM (atan2deg : ℚ → ℚ → ℚ) (s : FallLogicFSM) :
    List (ℚ × Option PoseResult) → List (FallLogicFSM × FallLogicFSM × Bool)
  | [] => []
  | (t, p) :: rest =>
    let r := FallLogicFSM.update atan2deg s t p
    (s, r.1, r.2.1) :: runFSM atan2deg r.1 rest

/-- The local `n_still` of `update` (line 118): `int(T_still_sec * fps)`
with `fps = max(infer_fps, 1)`. -/
def nStillOf (s : FallLogicFSM) : ℤ := pyInt (s.cfg.T_still_sec * max s.infer_fps 1)

/-- The local `since` of `update` (line 133) over a given (post-append)
history. -/
def sinceOf (s : FallLogicFSM) (hist : List Features) : ℤ :=
  (hist.length : ℤ) - (s.prelim_hist_len : ℤ)

/-- Stand-in for the external `degrees(atan2(vx, vy))` in concrete runs: a
constant 90 (a horizontal trunk), enough to drive predicate A. -/
def flatAngle : ℚ → ℚ → ℚ := fun _ _ => 90

/-- A 25-keypoint pose (all scores 1) with both shoulders at the origin and
both hips at `(0, hipY)`, in a 1×200 bbox. -/
def mkPose (hipY : ℚ) : PoseResult :=
  { keypoints := List.replicate 23 ⟨0, 0, 1⟩ ++ [⟨0, hipY, 1⟩, ⟨0, hipY, 1⟩]
    bbox := (0, 0, 1, 200)
    score := 1 }

/-- A detection config with unit windows (`n_pose = n_drop = n_still = 1` at
1 fps) and the default thresholds. -/
def testCfg : DetectionConfig :=
  { min_conf_joints := 8
    angle_deg_th := 55
    ratio_th := 3 / 5
    T_pose_sec := 1
    hip_drop_px_th := 40
    T_drop_sec := 1
    T_still_sec := 1
    v_still_px_per_frame := 1 / 2
    min_person_height_px := 120
    cooldown_sec := 5
    C_grace_sec := 3 / 5 }

/-- The default `config.DetectionConfig` values. -/
def defaultCfg : DetectionConfig :=
  { min_conf_joints := 8
    angle_deg_th := 55
    ratio_th := 3 / 5
    T_pose_sec := 1 / 2
    hip_drop_px_th := 40
    T_drop_sec := 2 / 5
    T_still_sec := 1
    v_still_px_per_frame := 1 / 2
    min_person_height_px := 120
    cooldown_sec := 5
    C_grace_sec := 3 / 5 }

/-- A three-tick run: upright, a 100 px hip drop at `t = 1` (the A∧B∧D
latch), then a pose 99 seconds later that triggers. -/
def testFsmInputs : List (ℚ × Option PoseResult) :=
  [(0, some (mkPose 0)), (1, some (mkPose 100)), (100, some (mkPose 100))]

/-- `capture.FrameRecord`, reduced to its monotonic index (the image buffer
and UTC string are opaque payloads that the collection logic never
inspects). -/
structure FrameRec where
  index : ℕ
deriving DecidableEq

/-- The `collecting` dict of `main.main` (lines 202–210): pre-trigger pairs,
the post list being filled, the post target length, and the trigger frame
index (`t0_ts[1]`). -/
structure Collecting where
  pre : List (FrameRec × Option PoseResult)
  frames : List (FrameRec × Option PoseResult)
  need_post : ℕ
  t0_index : ℕ
deriving DecidableEq

/-- The loop-carried state of `main.main`: the FSM, the rolling inference
history `hist`, the optional collecting record, and the finished events
(each frame tagged with its `t_rel_ms`). -/
structure LoopState where
  fsm : FallLogicFSM
  histMax : ℕ
  hist : List (FrameRec × Option PoseResult)
  collecting : Option Collecting
  completed : List (List (FrameRec × ℤ × Option PoseResult))
deriving DecidableEq

/-- `main.main` loop state before the first tick: `hist` capacity is
`int(pre_seconds * infer_fps * 2 + 20)` (line 103). -/
def LoopState.start (cfg : DetectionConfig) (pre_seconds infer_fps : ℚ) : LoopState :=
  { fsm := FallLogicFSM.init cfg infer_fps
    histMax := (pyInt (pre_seconds * infer_fps * 2 + 20)).toNat
    hist := []
    collecting := none
    completed := [] }

/-- One iteration of the `main.main` while-loop (lines 114–212, display
elided), in the source's two sequential blocks.  First block (lines
127–171): append `(lr, pose)` to the rolling history; if collecting, append
to the post list and finalize once `need_post` frames arrived
(`t_rel_ms = int((index - t0) * (1000 / max(1, infer_fps)))`), clearing
`collecting`.  Second block (lines 173–212): when `collecting` is *now*
`none` — including the very tick an event just completed — and a pose is
present, run `fsm.update`; on a trigger latch
`pre_list = list(hist)[-need_pre:]` and start collecting. -/
def loopStep (atan2deg : ℚ → ℚ → ℚ) (pre_seconds post_seconds infer_fps : ℚ)
    (st : LoopState) (now : ℚ) (lr : FrameRec) (pose : Option PoseResult) : LoopState :=
  let hist1 := dequeAppend st.histMax st.hist (lr, pose)
  let st1 : LoopState :=
    match st.collecting with
    | some c =>
      let c1 := { c with frames := c.frames ++ [(lr, pose)] }
      if c1.frames.length ≥ c1.need_post then
        let ev := (c1.pre ++ c1.frames).map (fun fp =>
          (fp.1, pyInt (((fp.1.index : ℤ) - (c1.t0_index : ℤ)) * (1000 / max 1 infer_fps)), fp.2))
        { st with hist := hist1, collecting := none, completed := st.completed ++ [ev] }
      else
        { st with hist := hist1, collecting := some c1 }
    | none => { st with hist := hist1 }
  match st1.collecting, pose with
  | none, some _ =>
    let r := FallLogicFSM.update atan2deg st1.fsm now pose
    match r.2.1, r.2.2 with
    | true, some _ =>
      let need_pre := (pyInt (pre_seconds * infer_fps)).toNat
      let pre_list := pySliceLast need_pre st1.hist
      { st1 with
        fsm := r.1
        collecting := some { pre := pre_list, frames := [],
                             need_post := (pyInt (post_seconds * infer_fps)).toNat,
                             t0_index := lr.index } }
    | _, _ => { st1 with fsm := r.1 }
  | _, _ => st1

/-- Fold of `loopStep` over a list of `(time, frame, pose)` ticks. -/
def loopRun (atan2deg : ℚ → ℚ → ℚ) (pre_seconds post_seconds infer_fps : ℚ)
    (st : LoopState) : List (ℚ × FrameRec × Option PoseResult) → LoopState
  | [] => st
  | (t, lr, p) :: rest =>
    loopRun atan2deg pre_seconds post_seconds infer_fps
      (loopStep atan2deg pre_seconds post_seconds infer_fps st t lr p) rest

/-- Five loop ticks at 1 fps: the fall scenario of `testFsmInputs` (trigger
on the third tick, frame index 2) followed by two post frames. -/
def testLoopInputs : List (ℚ × FrameRec × Option PoseResult) :=
  [(0, ⟨0⟩, some (mkPose 0)), (1, ⟨1⟩, some (mkPose 100)), (100, ⟨2⟩, some (mkPose 100)),
   (101, ⟨3⟩, some (mkPose 100)), (102, ⟨4⟩, some (mkPose 100))]

/-- A reference to a Python value: an opaque atom or the address of a dict
on the heap. -/
inductive PyRef where
  | atom (s : String)
  | addr (a : ℕ)
deriving DecidableEq

/-- A Python dict object: association list of string keys to references. -/
abbrev PyDict : Type := List (String × PyRef)

/-- The heap: addresses to dict objects. -/
abbrev Heap : Type := List (ℕ × PyDict)

/-- Read the dict at an address. -/
def heapGet (h : Heap) (a : ℕ) : Option PyDict :=
  match h with
  | [] => none
  | (b, d) :: rest => if b = a then some d else heapGet rest a

/-- Mutate the dict at an address (in place, as Python does). -/
def heapSet (h : Heap) (a : ℕ) (d : PyDict) : Heap :=
  match h with
  | [] => []
  | (b, e) :: rest => if b = a then (b, d) :: heapSet rest a d else (b, e) :: heapSet rest a d

/-- `d.get(k)` on a dict object. -/
def dictGet (d : PyDict) (k : String) : Option PyRef :=
  match d with
  | [] => none
  | (k2, v) :: rest => if k2 = k then some v else dictGet rest k

/-- `d.pop(k, None)`: remove the key if present. -/
def dictPop (d : PyDict) (k : String) : PyDict :=
  match d with
  | [] => []
  | (k2, v) :: rest => if k2 = k then dictPop rest k else (k2, v) :: dictPop rest k

/-- `d[k] = v`: replace in place, or append a new entry. -/
def dictSet (d : PyDict) (k : String) (v : PyRef) : PyDict :=
  match d with
  | [] => [(k, v)]
  | (k2, w) :: rest => if k2 = k then (k2, v) :: rest else (k2, w) :: dictSet rest k v

/-- `utils.serialize_json` (lines 43–49), heap effects only (the emitted
JSON text is out of scope).  With `redact`: `d = dict(d)` is a SHALLOW copy
placed at the fresh address `fresh1` — its `"system"` entry still references
the caller's nested dict — then `sys.pop("host", None)` mutates that shared
dict in place, and `d["system"] = sys` is stored on the copy.  Returns the
new heap and the address of the dict that would be dumped; `none` models the
`AttributeError` when `"system"` holds an atom, or a dangling address. -/
def serializeJson (h : Heap) (dAddr : ℕ) (redact : Bool) (fresh1 fresh2 : ℕ) :
    Option (Heap × ℕ) :=
  if redact then
    match heapGet h dAddr with
    | none => none
    | some d0 =>
      let h1 : Heap := (fresh1, d0) :: h
      match dictGet d0 "system" with
      | some (PyRef.addr a) =>
        match heapGet h1 a with
        | none => none
        | some sysd =>
          let h2 := heapSet h1 a (dictPop sysd "host")
          some (heapSet h2 fresh1 (dictSet d0 "system" (PyRef.addr a)), fresh1)
      | some (PyRef.atom _) => none
      | none =>
        let h2 : Heap := (fresh2, ([] : PyDict)) :: h1
        some (heapSet h2 fresh1 (dictSet d0 "system" (PyRef.addr fresh2)), fresh1)
  else
    some (h, dAddr)

/-- Features of `mkPose 0` under `flatAngle`. -/
def f0 : Features := ⟨90, 200, 0, 200⟩

/-- Features of `mkPose 100` under `flatAngle`. -/
def f100 : Features := ⟨90, 200, 100, 200⟩

/-- A constant-hip feature sample. -/
def f7 : Features := ⟨90, 200, 7, 200⟩

/-- An FSM state in `await_still` (latched after a 100 px drop) whose
`cooldown_until` is 100. -/
def sAwait : FallLogicFSM :=
  ⟨testCfg, 1, 8, [f0, f100], 100, .awaitStill, 2, 13 / 5, 90, 200, 100⟩

/-- An idle FSM state whose cooldown runs until `t = 5`. -/
def sCool : FallLogicFSM := ⟨testCfg, 1, 8, [f0], 5, .idle, 0, 0, 0, 1000000000, 0⟩

/-- Default tuple for indexing into `runFSM` output. -/
def dummyStep : FallLogicFSM × FallLogicFSM × Bool :=
  (FallLogicFSM.init testCfg 1, FallLogicFSM.init testCfg 1, false)

/-- A pose with no keypoints at all. -/
def shortPose : PoseResult := ⟨[], (0, 0, 0, 0), 0⟩

/-- The nested `system` dict of a metadata object. -/
def sysDict : PyDict := [("host", .atom "h1"), ("app_version", .atom "v")]

/-- A metadata dict whose `"system"` entry references `sysDict` at address 1. -/
def mainDict : PyDict := [("event_id", .atom "e1"), ("system", .addr 1)]

/-- A two-object heap: the metadata dict at 0, its `system` dict at 1. -/
def testHeap : Heap := [(0, mainDict), (1, sysDict)]

/-! ## List and arithmetic lemmas -/

theorem pySliceLast_length {α : Type} (n : ℕ) (l : List α) :
    (pySliceLast n l).length = if n = 0 then l.length else min n l.length := by
  unfold pySliceLast
  split
  · rfl
  · simp [List.length_drop]
    omega

theorem mem_pySliceLast {α : Type} {x : α} {n : ℕ} {l : List α}
    (hx : x ∈ pySliceLast n l) : x ∈ l := by
  unfold pySliceLast at hx
  split at hx
  · exact hx
  · exact List.mem_of_mem_drop hx

theorem getLastD_default_irrel {α : Type} (l : List α) (d1 d2 : α) (h : l ≠ []) :
    l.getLastD d1 = l.getLastD d2 := by
  cases l with
  | nil => exact absurd rfl h
  | cons x xs => simp only [List.getLastD_cons]

theorem getLastD_mem {α : Type} (l : List α) (d : α) (h : l ≠ []) : l.getLastD d ∈ l := by
  induction l generalizing d with
  | nil => exact absurd rfl h
  | cons x xs ih =>
    cases hxs : xs with
    | nil => simp [List.getLastD_cons]
    | cons y ys =>
      rw [List.getLastD_cons]
      rw [hxs] at ih
      exact List.mem_cons_of_mem x (ih x (by simp))

theorem getLastD_drop {α : Type} (k : ℕ) (l : List α) (d : α) (h : l.drop k ≠ []) :
    (l.drop k).getLastD d = l.getLastD d := by
  induction l generalizing k d with
  | nil => simp at h
  | cons x xs ih =>
    cases k with
    | zero => rfl
    | succ k2 =>
      rw [List.drop_succ_cons] at h ⊢
      have hxs : xs ≠ [] := by
        intro hx
        rw [hx] at h
        simp at h
      rw [ih k2 d h, List.getLastD_cons, getLastD_default_irrel xs d x hxs]

theorem getLastD_pySliceLast {α : Type} (n : ℕ) (l : List α) (d : α)
    (h : pySliceLast n l ≠ []) : (pySliceLast n l).getLastD d = l.getLastD d := by
  unfold pySliceLast at h ⊢
  split at h
  · simp only [if_pos ‹n = 0›]
  · rw [if_neg ‹¬ n = 0›]
    exact getLastD_drop _ l d h

theorem dropLast_drop_comm {α : Type} (l : List α) (k : ℕ) :
    (l.drop k).dropLast = l.dropLast.drop k := by
  induction l generalizing k with
  | nil => simp
  | cons x xs ih =>
    cases k with
    | zero => simp
    | succ k2 =>
      cases xs with
      | nil => simp
      | cons y ys =>
        rw [List.drop_succ_cons, ih k2, List.dropLast_cons₂, List.drop_succ_cons]

theorem mem_dropLast_pySliceLast {α : Type} {x : α} {n : ℕ} {l : List α}
    (hx : x ∈ (pySliceLast n l).dropLast) : x ∈ l.dropLast := by
  unfold pySliceLast at hx
  split at hx
  · exact hx
  · rw [dropLast_drop_comm] at hx
    exact List.mem_of_mem_drop hx

theorem foldlMin_mem (xs : List ℚ) (a : ℚ) : xs.foldl min a ∈ a :: xs := by
  induction xs generalizing a with
  | nil => simp [List.foldl]
  | cons y ys ih =>
    rw [List.foldl_cons]
    rcases List.mem_cons.1 (ih (min a y)) with h | h
    · rw [h]
      rcases min_choice a y with h2 | h2 <;> rw [h2] <;> simp
    · simp [h]

theorem foldlMin_le_init (xs : List ℚ) (a : ℚ) : xs.foldl min a ≤ a := by
  induction xs generalizing a with
  | nil => simp [List.foldl]
  | cons y ys ih =>
    rw [List.foldl_cons]
    exact le_trans (ih (min a y)) (min_le_left a y)

theorem foldlMin_le_mem {x : ℚ} {xs : List ℚ} (a : ℚ) (hx : x ∈ xs) :
    xs.foldl min a ≤ x := by
  induction xs generalizing a with
  | nil => simp at hx
  | cons y ys ih =>
    rw [List.foldl_cons]
    rcases List.mem_cons.1 hx with h | h
    · rw [h]
      exact le_trans (foldlMin_le_init ys (min a y)) (min_le_right a y)
    · exact ih (min a y) h

theorem listMinD_mem (d : ℚ) (l : List ℚ) (h : l ≠ []) : listMinD d l ∈ l := by
  cases l with
  | nil => exact absurd rfl h
  | cons x xs => exact foldlMin_mem xs x

theorem listMinD_le (d : ℚ) {x : ℚ} {l : List ℚ} (hx : x ∈ l) : listMinD d l ≤ x := by
  cases l with
  | nil => simp at hx
  | cons y ys =>
    rcases List.mem_cons.1 hx with h | h
    · rw [h]
      exact foldlMin_le_init ys y
    · exact foldlMin_le_mem y h

/-! ## Structural lemmas on the FSM step -/

theorem cooldownStep_eq (ad : ℚ → ℚ → ℚ) (s : FallLogicFSM) (p : Option PoseResult) :
    cooldownStep ad s p = { s with history := (cooldownStep ad s p).history } := by
  cases p with
  | none => rfl
  | some pr =>
    cases hft : computeFeatures ad pr with
    | none => simp [cooldownStep, hft]
    | some ft => simp [cooldownStep, hft]

theorem cooldownStep_history (ad : ℚ → ℚ → ℚ) (s : FallLogicFSM) (pr : PoseResult)
    (ft : Features) (hft : computeFeatures ad pr = some ft) :
    (cooldownStep ad s (some pr)).history = dequeAppend s.historyMax s.history ft := by
  simp [cooldownStep, hft]

/-! ## Claim theorems -/

theorem update_none (ad : ℚ → ℚ → ℚ) (s : FallLogicFSM) (now : ℚ) :
    FallLogicFSM.update ad s now none = (s, false, none) := by
  unfold FallLogicFSM.update
  split
  · rfl
  · rfl

/-- Claim C9 (confirmed): for every FSM state and time, `update` on a `none`
pose returns `(false, none)` and the state is unchanged in every field — no
history append, no transition, no deadline give-up. -/
theorem update_none_noop (ad : ℚ → ℚ → ℚ) (s : FallLogicFSM) (now : ℚ) :
    FallLogicFSM.update ad s now none = (s, false, none) :=
  update_none ad s now

/-- Claim C4 counterexample: at `now = cooldown_until` (here 100) the FSM is
NOT treated as cooling down: from a concrete `await_still` state it runs the
transition logic, emits a trigger and changes state, instead of returning
`(false, none)` untouched. -/
theorem cooldown_boundary_cex :
    sAwait.cooldown_until = 100 ∧
    (FallLogicFSM.update flatAngle sAwait 100 (some (mkPose 100))).2.1 = true ∧
    (FallLogicFSM.update flatAngle sAwait 100 (some (mkPose 100))).1.state ≠ sAwait.state := by
  decide

/-- Claim C4 (amended): at `now == cooldown_until` the strict `<` of
`logic.py` line 74 means the cooldown is already over — `update` behaves
exactly as the active (non-cooldown) branch, evaluating transitions
normally. -/
theorem cooldown_boundary_active (ad : ℚ → ℚ → ℚ) (s : FallLogicFSM)
    (p : Option PoseResult) :
    FallLogicFSM.update ad s s.cooldown_until p = updateActive ad s s.cooldown_until p := by
  unfold FallLogicFSM.update
  rw [if_neg (lt_irrefl s.cooldown_until)]

/-- Claim C5 (confirmed): while `now < cooldown_until`, `update` returns
`(false, none)` whatever the input, leaves the mode and every latched field
unchanged, and still appends the features of a successfully-computed pose to
the history. -/
theorem cooldown_frozen (ad : ℚ → ℚ → ℚ) (s : FallLogicFSM) (now : ℚ)
    (p : Option PoseResult) (h : now < s.cooldown_until) :
    (FallLogicFSM.update ad s now p).2 = (false, none) ∧
    (FallLogicFSM.update ad s now p).1.state = s.state ∧
    (FallLogicFSM.update ad s now p).1.cooldown_until = s.cooldown_until ∧
    (FallLogicFSM.update ad s now p).1.still_deadline = s.still_deadline ∧
    (FallLogicFSM.update ad s now p).1.prelim_hist_len = s.prelim_hist_len ∧
    (FallLogicFSM.update ad s now p).1.pre_theta_max = s.pre_theta_max ∧
    (FallLogicFSM.update ad s now p).1.pre_ratio_min = s.pre_ratio_min ∧
    (FallLogicFSM.update ad s now p).1.pre_hip_drop = s.pre_hip_drop ∧
    ∀ pr ft, p = some pr → computeFeatures ad pr = some ft →
      (FallLogicFSM.update ad s now p).1.history = dequeAppend s.historyMax s.history ft := by
  have hu : FallLogicFSM.update ad s now p = (cooldownStep ad s p, false, none) := by
    unfold FallLogicFSM.update
    rw [if_pos h]
  rw [hu]
  refine ⟨rfl, ?_, ?_, ?_, ?_, ?_, ?_, ?_, ?_⟩
  · rw [cooldownStep_eq ad s p]
  · rw [cooldownStep_eq ad s p]
  · rw [cooldownStep_eq ad s p]
  · rw [cooldownStep_eq ad s p]
  · rw [cooldownStep_eq ad s p]
  · rw [cooldownStep_eq ad s p]
  · rw [cooldownStep_eq ad s p]
  · intro pr ft hp hft
    rw [hp]
    exact cooldownStep_history ad s pr ft hft

/-- Claim C5 witness: a concrete cooling-down tick (`now = 0 < 5`) with a
valid pose. -/
theorem cooldown_frozen_witness :
    (0 : ℚ) < sCool.cooldown_until ∧
    ((FallLogicFSM.update flatAngle sCool 0 (some (mkPose 0))).2 = (false, none) ∧
     (FallLogicFSM.update flatAngle sCool 0 (some (mkPose 0))).1.state = sCool.state ∧
     (FallLogicFSM.update flatAngle sCool 0 (some (mkPose 0))).1.cooldown_until = sCool.cooldown_until ∧
     (FallLogicFSM.update flatAngle sCool 0 (some (mkPose 0))).1.still_deadline = sCool.still_deadline ∧
     (FallLogicFSM.update flatAngle sCool 0 (some (mkPose 0))).1.prelim_hist_len = sCool.prelim_hist_len ∧
     (FallLogicFSM.update flatAngle sCool 0 (some (mkPose 0))).1.pre_theta_max = sCool.pre_theta_max ∧
     (FallLogicFSM.update flatAngle sCool 0 (some (mkPose 0))).1.pre_ratio_min = sCool.pre_ratio_min ∧
     (FallLogicFSM.update flatAngle sCool 0 (some (mkPose 0))).1.pre_hip_drop = sCool.pre_hip_drop ∧
     ∀ pr ft, some (mkPose 0) = some pr → computeFeatures flatAngle pr = some ft →
       (FallLogicFSM.update flatAngle sCool 0 (some (mkPose 0))).1.history =
         dequeAppend sCool.historyMax sCool.history ft) :=
  ⟨by decide, cooldown_frozen flatAngle sCool 0 (some (mkPose 0)) (by decide)⟩

/-- Claim C6 counterexample: at the default detection config and 12 fps the
deque capacity is `int(22.8 + 5) = 27`, strictly below the claimed
`⌈22.8⌉ + 5 = 28`. -/
theorem capacity_cex :
    (FallLogicFSM.init defaultCfg 12).historyMax = 27 ∧
    ¬ ((⌈(defaultCfg.T_pose_sec + defaultCfg.T_still_sec + defaultCfg.T_drop_sec) * 12⌉).toNat + 5
        ≤ (FallLogicFSM.init defaultCfg 12).historyMax) := by
  decide

/-- Claim C6 (amended): for a non-negative product
`(T_pose + T_still + T_drop) * infer_fps`, the deque capacity is
`⌊product⌋ + 5` — a floor, not a ceiling (and never below 3). -/
theorem capacity_floor (cfg : DetectionConfig) (fps : ℚ)
    (h : 0 ≤ (cfg.T_pose_sec + cfg.T_still_sec + cfg.T_drop_sec) * fps) :
    (FallLogicFSM.init cfg fps).historyMax =
      (⌊(cfg.T_pose_sec + cfg.T_still_sec + cfg.T_drop_sec) * fps⌋).toNat + 5 := by
  unfold FallLogicFSM.init
  dsimp only
  set x : ℚ := (cfg.T_pose_sec + cfg.T_still_sec + cfg.T_drop_sec) * fps with hx
  have hmax : max 3 (x + 5) = x + 5 := max_eq_right (by linarith)
  rw [hmax]
  unfold pyInt
  rw [if_neg (by push_neg; linarith)]
  have h5 : ⌊x + 5⌋ = ⌊x⌋ + 5 := by
    have := Int.floor_add_int x 5
    push_cast at this
    exact this
  rw [h5]
  have h0 : 0 ≤ ⌊x⌋ := Int.floor_nonneg.mpr h
  omega

/-- Claim C6 witness: the default config at 12 fps, where the capacity is
`⌊22.8⌋ + 5 = 27`. -/
theorem capacity_floor_witness :
    (0 : ℚ) ≤ (defaultCfg.T_pose_sec + defaultCfg.T_still_sec + defaultCfg.T_drop_sec) * 12 ∧
    (FallLogicFSM.init defaultCfg 12).historyMax =
      (⌊(defaultCfg.T_pose_sec + defaultCfg.T_still_sec + defaultCfg.T_drop_sec) * 12⌋).toNat + 5 :=
  ⟨by decide, capacity_floor defaultCfg 12 (by decide)⟩

/-- Claim C3 counterexample: a rising hip (current `hip_y` below the prior
minimum) makes `hip_drop` strictly negative — here `5 - 10 = -5` — so
`hip_drop` is NOT non-negative for all feature sequences. -/
theorem hipDrop_negative_cex :
    hipDropOf testCfg 1 [⟨90, 200, 10, 200⟩, ⟨90, 200, 5, 200⟩] < 0 := by
  decide

/-- Claim C3 (amended): over any history of length at least 2, `hip_drop` is
0 for a motionless subject (constant `hip_y`) and positive when the current
`hip_y` strictly exceeds every earlier value (a drop, in image
coordinates); it can be negative when the subject rises. -/
theorem hipDrop_motionless_drop (cfg : DetectionConfig) (fps : ℚ)
    (hist : List Features) (h2 : 2 ≤ hist.length) :
    (∀ c, (∀ f ∈ hist, f.hip_y = c) → hipDropOf cfg fps hist = 0) ∧
    ((∀ f ∈ hist.dropLast, f.hip_y < (hist.getLastD ⟨0, 0, 0, 0⟩).hip_y) →
      0 < hipDropOf cfg fps hist) := by
  set wl := max 2 (min hist.length ((pyInt (cfg.T_drop_sec * fps)).toNat + 1)) with hwl
  have hrw : hipDropOf cfg fps hist =
      ((pySliceLast wl hist).getLastD ⟨0, 0, 0, 0⟩).hip_y -
        listMinD 0 ((pySliceLast wl hist).dropLast.map (fun f => f.hip_y)) := by
    simp only [hipDropOf, if_pos h2]
  rw [hrw]
  have hwl2 : 2 ≤ wl := le_max_left _ _
  have hwlen : (pySliceLast wl hist).length = min wl hist.length := by
    rw [pySliceLast_length]
    rw [if_neg (by omega)]
  have hwin2 : 2 ≤ (pySliceLast wl hist).length := by
    rw [hwlen]
    exact le_min hwl2 h2
  have hwne : pySliceLast wl hist ≠ [] := by
    intro hw
    rw [hw] at hwin2
    simp at hwin2
  have hdlne : (pySliceLast wl hist).dropLast ≠ [] := by
    have : 1 ≤ (pySliceLast wl hist).dropLast.length := by
      rw [List.length_dropLast]
      omega
    intro hw
    rw [hw] at this
    simp at this
  have hmapne : ((pySliceLast wl hist).dropLast.map (fun f => f.hip_y)) ≠ [] := by
    intro hw
    rw [List.map_eq_nil_iff] at hw
    exact hdlne hw
  constructor
  · intro c hall
    have hcur : ((pySliceLast wl hist).getLastD ⟨0, 0, 0, 0⟩).hip_y = c :=
      hall _ (mem_pySliceLast (getLastD_mem _ _ hwne))
    have hmin : listMinD 0 ((pySliceLast wl hist).dropLast.map (fun f => f.hip_y)) = c := by
      have hmem := listMinD_mem 0 _ hmapne
      rcases List.mem_map.1 hmem with ⟨f, hf, hfeq⟩
      rw [← hfeq]
      exact hall f (mem_pySliceLast (List.dropLast_subset _ hf))
    rw [hcur, hmin]
    ring
  · intro hlt
    have hcur : ((pySliceLast wl hist).getLastD ⟨0, 0, 0, 0⟩).hip_y =
        (hist.getLastD ⟨0, 0, 0, 0⟩).hip_y := by
      rw [getLastD_pySliceLast wl hist _ hwne]
    have hmem := listMinD_mem 0 _ hmapne
    rcases List.mem_map.1 hmem with ⟨f, hf, hfeq⟩
    have hflt : f.hip_y < (hist.getLastD ⟨0, 0, 0, 0⟩).hip_y :=
      hlt f (mem_dropLast_pySliceLast hf)
    rw [hcur]
    have : listMinD 0 ((pySliceLast wl hist).dropLast.map (fun f => f.hip_y)) = f.hip_y :=
      hfeq.symm
    rw [this]
    linarith

/-- Claim C3 witness: the constant history `[f7, f7]` gives `hip_drop = 0`,
discharging the amended theorem's hypotheses at a concrete input. -/
theorem hipDrop_motionless_witness :
    2 ≤ ([f7, f7] : List Features).length ∧ hipDropOf testCfg 1 [f7, f7] = 0 :=
  ⟨by decide, (hipDrop_motionless_drop testCfg 1 [f7, f7] (by decide)).1 7 (by decide)⟩

/-- Claim C8 (confirmed): feature extraction returns `none` iff one of the
keypoints 11, 12, 23, 24 is absent (list length at most 24) or scores below
0.2; otherwise `theta` is the absolute angle of the shoulder-to-hip vector
(hence non-negative), `ratio = h / max(1, w)` over the bbox,
`hip_y` is the hip-midpoint ordinate and `h_person` the bbox height. -/
theorem computeFeatures_spec (ad : ℚ → ℚ → ℚ) (pose : PoseResult) :
    (computeFeatures ad pose = none ↔
      pose.keypoints.length ≤ 24 ∨
      (pose.keypoints.getD 11 ⟨0, 0, 0⟩).score < 1 / 5 ∨
      (pose.keypoints.getD 12 ⟨0, 0, 0⟩).score < 1 / 5 ∨
      (pose.keypoints.getD 23 ⟨0, 0, 0⟩).score < 1 / 5 ∨
      (pose.keypoints.getD 24 ⟨0, 0, 0⟩).score < 1 / 5) ∧
    ∀ ft, computeFeatures ad pose = some ft →
      ft.theta = |ad
        (((pose.keypoints.getD 23 ⟨0, 0, 0⟩).x + (pose.keypoints.getD 24 ⟨0, 0, 0⟩).x) / 2 -
          ((pose.keypoints.getD 11 ⟨0, 0, 0⟩).x + (pose.keypoints.getD 12 ⟨0, 0, 0⟩).x) / 2)
        (((pose.keypoints.getD 23 ⟨0, 0, 0⟩).y + (pose.keypoints.getD 24 ⟨0, 0, 0⟩).y) / 2 -
          ((pose.keypoints.getD 11 ⟨0, 0, 0⟩).y + (pose.keypoints.getD 12 ⟨0, 0, 0⟩).y) / 2)| ∧
      0 ≤ ft.theta ∧
      ft.ratio = (pose.bbox.2.2.2 : ℚ) / max 1 (pose.bbox.2.2.1 : ℚ) ∧
      ft.hip_y = ((pose.keypoints.getD 23 ⟨0, 0, 0⟩).y + (pose.keypoints.getD 24 ⟨0, 0, 0⟩).y) / 2 ∧
      ft.h_person = (pose.bbox.2.2.2 : ℚ) := by
  by_cases h24 : 24 < pose.keypoints.length
  · have e11 : pose.keypoints.getD 11 ⟨0, 0, 0⟩ = pose.keypoints.get ⟨11, by omega⟩ :=
      List.getD_eq_get _ _ (by omega)
    have e12 : pose.keypoints.getD 12 ⟨0, 0, 0⟩ = pose.keypoints.get ⟨12, by omega⟩ :=
      List.getD_eq_get _ _ (by omega)
    have e23 : pose.keypoints.getD 23 ⟨0, 0, 0⟩ = pose.keypoints.get ⟨23, by omega⟩ :=
      List.getD_eq_get _ _ (by omega)
    have e24 : pose.keypoints.getD 24 ⟨0, 0, 0⟩ = pose.keypoints.get ⟨24, by omega⟩ :=
      List.getD_eq_get _ _ (by omega)
    by_cases hsc : min (pose.keypoints.get ⟨11, by omega⟩).score
        (min (pose.keypoints.get ⟨12, by omega⟩).score
          (min (pose.keypoints.get ⟨23, by omega⟩).score
            (pose.keypoints.get ⟨24, by omega⟩).score)) < 1 / 5
    · have hnone : computeFeatures ad pose = none := by
        simp only [computeFeatures]
        rw [dif_pos h24, if_pos hsc]
      refine ⟨⟨fun _ => ?_, fun _ => hnone⟩, fun ft hft => ?_⟩
      · rw [e11, e12, e23, e24]
        rcases min_lt_iff.1 hsc with h | h
        · exact Or.inr (Or.inl h)
        rcases min_lt_iff.1 h with h | h
        · exact Or.inr (Or.inr (Or.inl h))
        rcases min_lt_iff.1 h with h | h
        · exact Or.inr (Or.inr (Or.inr (Or.inl h)))
        · exact Or.inr (Or.inr (Or.inr (Or.inr h)))
      · rw [hnone] at hft
        exact absurd hft (by simp)
    · have hsome : computeFeatures ad pose = some
          { theta := |ad
              (((pose.keypoints.get ⟨23, by omega⟩).x + (pose.keypoints.get ⟨24, by omega⟩).x) / 2 -
                ((pose.keypoints.get ⟨11, by omega⟩).x + (pose.keypoints.get ⟨12, by omega⟩).x) / 2)
              (((pose.keypoints.get ⟨23, by omega⟩).y + (pose.keypoints.get ⟨24, by omega⟩).y) / 2 -
                ((pose.keypoints.get ⟨11, by omega⟩).y + (pose.keypoints.get ⟨12, by omega⟩).y) / 2)|
            ratio := (pose.bbox.2.2.2 : ℚ) / max 1 (pose.bbox.2.2.1 : ℚ)
            hip_y := ((pose.keypoints.get ⟨23, by omega⟩).y + (pose.keypoints.get ⟨24, by omega⟩).y) / 2
            h_person := (pose.bbox.2.2.2 : ℚ) } := by
        simp only [computeFeatures, center]
        rw [dif_pos h24, if_neg hsc]
      have hge := le_of_not_lt hsc
      refine ⟨⟨fun h => ?_, fun h => ?_⟩, fun ft hft => ?_⟩
      · rw [hsome] at h
        exact absurd h (by simp)
      · rcases h with h | h
        · omega
        rw [e11, e12, e23, e24] at h
        rcases h with h | h | h | h
        · have := le_trans hge (min_le_left _ _)
          linarith
        · have := le_trans hge (le_trans (min_le_right _ _) (min_le_left _ _))
          linarith
        · have := le_trans hge
            (le_trans (min_le_right _ _) (le_trans (min_le_right _ _) (min_le_left _ _)))
          linarith
        · have := le_trans hge
            (le_trans (min_le_right _ _) (le_trans (min_le_right _ _) (min_le_right _ _)))
          linarith
      · rw [hsome] at hft
        injection hft with hft2
        rw [← hft2]
        rw [e11, e12, e23, e24]
        exact ⟨rfl, abs_nonneg _, rfl, rfl, rfl⟩
  · have hnone : computeFeatures ad pose = none := by
      simp only [computeFeatures]
      rw [dif_neg h24]
    refine ⟨⟨fun _ => Or.inl (by omega), fun _ => hnone⟩, fun ft hft => ?_⟩
    rw [hnone] at hft
    exact absurd hft (by simp)

/-- Claim C8 witness: a keypoint-free pose maps to `none`; a full pose with
hips at `(0, 5)` has non-negative `theta`. -/
theorem computeFeatures_spec_witness :
    computeFeatures flatAngle shortPose = none ∧ (0 : ℚ) ≤ (Features.mk 90 200 5 200).theta :=
  ⟨(computeFeatures_spec flatAngle shortPose).1.mpr (Or.inl (by decide)),
   ((computeFeatures_spec flatAngle (mkPose 5)).2 ⟨90, 200, 5, 200⟩ (by decide)).2.1⟩

/-- Inversion of the trigger branch of `update`: a `true` first component of
the returned pair can only come from `await_still` with a pose whose
features computed, `since ≥ n_still`, a true stillness verdict, and D. -/
theorem update_trig_inv (ad : ℚ → ℚ → ℚ) (s : FallLogicFSM) (now : ℚ)
    (p : Option PoseResult) (htrig : (FallLogicFSM.update ad s now p).2.1 = true) :
    ∃ pr ft, p = some pr ∧ computeFeatures ad pr = some ft ∧ s.state = .awaitStill ∧
      sinceOf s (dequeAppend s.historyMax s.history ft) ≥ nStillOf s ∧
      (stillStats s.cfg (sinceOf s (dequeAppend s.historyMax s.history ft)).toNat
        (nStillOf s).toNat (dequeAppend s.historyMax s.history ft)).2 = true ∧
      predD s.cfg (dequeAppend s.historyMax s.history ft) = true := by
  unfold FallLogicFSM.update at htrig
  split at htrig
  · simp at htrig
  · cases p with
    | none => simp [updateActive] at htrig
    | some pr =>
      have h2 : updateActive ad s now (some pr) =
          (match computeFeatures ad pr with
           | none => (s, false, none)
           | some ft => updateTick s now ft) := rfl
      rw [h2] at htrig
      cases hft : computeFeatures ad pr with
      | none =>
        rw [hft] at htrig
        simp at htrig
      | some ft =>
        rw [hft] at htrig
        simp only [updateTick] at htrig
        split at htrig
        · split at htrig <;> simp at htrig
        · rename_i hstate
          split at htrig
          · rename_i hge
            split at htrig
            · rename_i hcd
              rw [Bool.and_eq_true] at hcd
              obtain ⟨hc, hd⟩ := hcd
              exact ⟨pr, ft, rfl, hft, hstate, hge, hc, hd⟩
            · split at htrig <;> simp at htrig
          · split at htrig <;> simp at htrig

/-- Inversion of the latch branch of `update`: an `idle → await_still`
transition can only come from a pose whose features computed, appended to
the history, with A, B and D all true on the new history. -/
theorem update_latch_inv (ad : ℚ → ℚ → ℚ) (s : FallLogicFSM) (now : ℚ)
    (p : Option PoseResult) (hidle : s.state = .idle)
    (hawait : (FallLogicFSM.update ad s now p).1.state = .awaitStill) :
    ∃ pr ft, p = some pr ∧ computeFeatures ad pr = some ft ∧
      (FallLogicFSM.update ad s now p).1.history = dequeAppend s.historyMax s.history ft ∧
      predA s.cfg (max s.infer_fps 1) (dequeAppend s.historyMax s.history ft) = true ∧
      predB s.cfg (max s.infer_fps 1) (dequeAppend s.historyMax s.history ft) = true ∧
      predD s.cfg (dequeAppend s.historyMax s.history ft) = true := by
  cases p with
  | none =>
    rw [update_none] at hawait
    have h1 : s.state = FsmMode.awaitStill := hawait
    rw [hidle] at h1
    exact absurd h1 (by decide)
  | some pr =>
    by_cases hcd : now < s.cooldown_until
    · exfalso
      have heq : FallLogicFSM.update ad s now (some pr) =
          (cooldownStep ad s (some pr), false, none) := by
        unfold FallLogicFSM.update
        rw [if_pos hcd]
      rw [heq] at hawait
      have h1 : (cooldownStep ad s (some pr)).state = FsmMode.awaitStill := hawait
      have h2 : (cooldownStep ad s (some pr)).state = s.state := by
        rw [cooldownStep_eq ad s (some pr)]
      rw [h2, hidle] at h1
      exact absurd h1 (by decide)
    · have h3 : updateActive ad s now (some pr) =
          (match computeFeatures ad pr with
           | none => (s, false, none)
           | some ft => updateTick s now ft) := rfl
      have heq0 : FallLogicFSM.update ad s now (some pr) = updateActive ad s now (some pr) := by
        unfold FallLogicFSM.update
        rw [if_neg hcd]
      cases hft : computeFeatures ad pr with
      | none =>
        exfalso
        have heq : FallLogicFSM.update ad s now (some pr) = (s, false, none) := by
          rw [heq0, h3, hft]
        rw [heq] at hawait
        have h1 : s.state = FsmMode.awaitStill := hawait
        rw [hidle] at h1
        exact absurd h1 (by decide)
      | some ft =>
        have heq : FallLogicFSM.update ad s now (some pr) = updateTick s now ft := by
          rw [heq0, h3, hft]
        rw [heq] at hawait ⊢
        by_cases habd : (predA s.cfg (max s.infer_fps 1) (dequeAppend s.historyMax s.history ft) &&
            predB s.cfg (max s.infer_fps 1) (dequeAppend s.historyMax s.history ft) &&
            predD s.cfg (dequeAppend s.historyMax s.history ft)) = true
        · have hA := habd
          rw [Bool.and_eq_true] at hA
          obtain ⟨hab, hd⟩ := hA
          rw [Bool.and_eq_true] at hab
          obtain ⟨ha, hb⟩ := hab
          refine ⟨pr, ft, rfl, hft, ?_, ha, hb, hd⟩
          simp only [updateTick, hidle, habd, if_true]
        · exfalso
          have h5 : (updateTick s now ft).1.state = FsmMode.idle := by
            simp only [updateTick, hidle]
            rw [if_neg habd]
          rw [h5] at hawait
          exact absurd hawait (by decide)

/-- Claim C7 (amended): when a trigger fires from `await_still`, `since ≥
n_still` and D hold, and the stillness verdict was computed over the last
`min(since, n_still + 1)` history entries — only `n_still` entries (hence
`n_still - 1` diffs) on the earliest qualifying tick `since = n_still` —
whose absolute first differences are either empty (trivially still) or
satisfy `q80 < 1.2 * v_still` and `frac_ok ≥ 0.7`. -/
theorem trigger_stillness_window (ad : ℚ → ℚ → ℚ) (s : FallLogicFSM) (now : ℚ)
    (p : Option PoseResult) (htrig : (FallLogicFSM.update ad s now p).2.1 = true) :
    ∃ pr ft, p = some pr ∧ computeFeatures ad pr = some ft ∧ s.state = .awaitStill ∧
      sinceOf s (dequeAppend s.historyMax s.history ft) ≥ nStillOf s ∧
      predD s.cfg (dequeAppend s.historyMax s.history ft) = true ∧
      (diffsOf (segC (sinceOf s (dequeAppend s.historyMax s.history ft)).toNat
          (nStillOf s).toNat (dequeAppend s.historyMax s.history ft)) = [] ∨
        (percentile80 (diffsOf (segC (sinceOf s (dequeAppend s.historyMax s.history ft)).toNat
            (nStillOf s).toNat (dequeAppend s.historyMax s.history ft))) <
          s.cfg.v_still_px_per_frame * (6 / 5) ∧
         (((diffsOf (segC (sinceOf s (dequeAppend s.historyMax s.history ft)).toNat
              (nStillOf s).toNat (dequeAppend s.historyMax s.history ft))).countP
              (fun x => decide (x ≤ s.cfg.v_still_px_per_frame)) : ℚ) /
            ((diffsOf (segC (sinceOf s (dequeAppend s.historyMax s.history ft)).toNat
              (nStillOf s).toNat (dequeAppend s.historyMax s.history ft))).length : ℚ) ≥ 7 / 10))) ∧
      (1 ≤ sinceOf s (dequeAppend s.historyMax s.history ft) →
        (segC (sinceOf s (dequeAppend s.historyMax s.history ft)).toNat (nStillOf s).toNat
          (dequeAppend s.historyMax s.history ft)).length =
        min (sinceOf s (dequeAppend s.historyMax s.history ft)).toNat ((nStillOf s).toNat + 1)) := by
  obtain ⟨pr, ft, hp, hft, hstate, hge, hstill, hD⟩ := update_trig_inv ad s now p htrig
  refine ⟨pr, ft, hp, hft, hstate, hge, hD, ?_, ?_⟩
  · simp only [stillStats] at hstill
    split at hstill
    · rename_i hempty
      exact Or.inl (List.isEmpty_iff.1 hempty)
    · rw [Bool.and_eq_true] at hstill
      obtain ⟨hq, hf⟩ := hstill
      exact Or.inr ⟨of_decide_eq_true hq, of_decide_eq_true hf⟩
  · intro h1
    set hist := dequeAppend s.historyMax s.history ft with hh
    have hsle : (sinceOf s hist).toNat ≤ hist.length := by
      unfold sinceOf
      omega
    have hs1 : (sinceOf s hist).toNat ≠ 0 := by omega
    unfold segC
    rw [pySliceLast_length, if_neg (by omega), pySliceLast_length, if_neg hs1]
    omega

/-- A trigger can only be emitted from the `await_still` mode. -/
theorem update_trig_state (ad : ℚ → ℚ → ℚ) (s : FallLogicFSM) (now : ℚ)
    (p : Option PoseResult) (htrig : (FallLogicFSM.update ad s now p).2.1 = true) :
    s.state = .awaitStill := by
  obtain ⟨_, _, _, _, hstate, _⟩ := update_trig_inv ad s now p htrig
  exact hstate

/-- Claim C7 witness: the concrete `await_still` state `sAwait` triggers at
`t = 100` on a still pose (and was indeed in `await_still`). -/
theorem trigger_stillness_window_witness :
    (FallLogicFSM.update flatAngle sAwait 100 (some (mkPose 100))).2.1 = true ∧
    sAwait.state = FsmMode.awaitStill :=
  ⟨by decide,
   (trigger_stillness_window flatAngle sAwait 100 (some (mkPose 100)) (by decide)).elim
     (fun _ hpr => hpr.elim (fun _ hh => hh.2.2.1))⟩

/-- Claim C7 counterexample: a concrete trigger from `await_still` with
`since = n_still = 1` evaluates stillness over a single history entry (zero
first differences), not over `n_still + 1 = 2` entries with `n_still = 1`
differences as claimed. -/
theorem stillness_window_len_cex :
    (FallLogicFSM.update flatAngle sAwait 100 (some (mkPose 100))).2.1 = true ∧
    computeFeatures flatAngle (mkPose 100) = some f100 ∧
    (nStillOf sAwait).toNat = 1 ∧
    (segC (sinceOf sAwait (dequeAppend sAwait.historyMax sAwait.history f100)).toNat
      (nStillOf sAwait).toNat (dequeAppend sAwait.historyMax sAwait.history f100)).length = 1 ∧
    ¬ ((segC (sinceOf sAwait (dequeAppend sAwait.historyMax sAwait.history f100)).toNat
        (nStillOf sAwait).toNat (dequeAppend sAwait.historyMax sAwait.history f100)).length =
       (nStillOf sAwait).toNat + 1) ∧
    (diffsOf (segC (sinceOf sAwait (dequeAppend sAwait.historyMax sAwait.history f100)).toNat
      (nStillOf sAwait).toNat (dequeAppend sAwait.historyMax sAwait.history f100))).length = 0 := by
  decide

/-- Over any run from any start state, a trigger at tick `i` is preceded by
a latch tick, unless the run already started in `await_still`. -/
theorem runFSM_trig_latch (ad : ℚ → ℚ → ℚ) (s : FallLogicFSM)
    (inputs : List (ℚ × Option PoseResult)) (i : ℕ)
    (d : FallLogicFSM × FallLogicFSM × Bool)
    (hi : i < (runFSM ad s inputs).length)
    (htrig : ((runFSM ad s inputs).getD i d).2.2 = true) :
    (∃ j, j < i ∧ j < (runFSM ad s inputs).length ∧
      ((runFSM ad s inputs).getD j d).1.state = FsmMode.idle ∧
      ((runFSM ad s inputs).getD j d).2.1.state = FsmMode.awaitStill ∧
      predA ((runFSM ad s inputs).getD j d).1.cfg
        (max ((runFSM ad s inputs).getD j d).1.infer_fps 1)
        ((runFSM ad s inputs).getD j d).2.1.history = true ∧
      predB ((runFSM ad s inputs).getD j d).1.cfg
        (max ((runFSM ad s inputs).getD j d).1.infer_fps 1)
        ((runFSM ad s inputs).getD j d).2.1.history = true ∧
      predD ((runFSM ad s inputs).getD j d).1.cfg
        ((runFSM ad s inputs).getD j d).2.1.history = true) ∨
    s.state = FsmMode.awaitStill := by
  induction inputs generalizing s i with
  | nil => simp [runFSM] at hi
  | cons hd rest ih =>
    obtain ⟨t, p⟩ := hd
    simp only [runFSM] at hi htrig ⊢
    cases i with
    | zero =>
      rw [List.getD_cons_zero] at htrig
      exact Or.inr (update_trig_state ad s t p htrig)
    | succ k =>
      rw [List.getD_cons_succ] at htrig
      rw [List.length_cons] at hi
      have hik : k < (runFSM ad (FallLogicFSM.update ad s t p).1 rest).length := by omega
      rcases ih (FallLogicFSM.update ad s t p).1 k hik htrig with ⟨j, hji, hjlen, hprops⟩ | hawait
      · refine Or.inl ⟨j + 1, by omega, ?_, ?_⟩
        · rw [List.length_cons]
          omega
        · rw [List.getD_cons_succ]
          exact hprops
      · cases hstate : s.state with
        | awaitStill => exact Or.inr rfl
        | idle =>
          obtain ⟨pr, ft, hp, hft, hhist, hA, hB, hD⟩ :=
            update_latch_inv ad s t p hstate hawait
          refine Or.inl ⟨0, by omega, by rw [List.length_cons]; omega, ?_, ?_, ?_, ?_, ?_⟩
          · rw [List.getD_cons_zero]
            exact hstate
          · rw [List.getD_cons_zero]
            exact hawait
          · rw [List.getD_cons_zero]
            show predA s.cfg (max s.infer_fps 1) (FallLogicFSM.update ad s t p).1.history = true
            rw [hhist]
            exact hA
          · rw [List.getD_cons_zero]
            show predB s.cfg (max s.infer_fps 1) (FallLogicFSM.update ad s t p).1.history = true
            rw [hhist]
            exact hB
          · rw [List.getD_cons_zero]
            show predD s.cfg (FallLogicFSM.update ad s t p).1.history = true
            rw [hhist]
            exact hD

/-- Claim C1 (amended): for every trigger emitted over a run from the
initial (idle) FSM state, there is an earlier tick on which the FSM moved
from idle to `await_still` with A, B and D all true — but the wall-clock gap
between that tick and the trigger is NOT bounded by `T_still + C_grace`
(see the counterexample): the deadline give-up only runs on pose ticks that
fail the trigger test. -/
theorem trigger_has_latch (ad : ℚ → ℚ → ℚ) (cfg : DetectionConfig) (fps : ℚ)
    (inputs : List (ℚ × Option PoseResult)) (i : ℕ)
    (d : FallLogicFSM × FallLogicFSM × Bool)
    (hi : i < (runFSM ad (FallLogicFSM.init cfg fps) inputs).length)
    (htrig : ((runFSM ad (FallLogicFSM.init cfg fps) inputs).getD i d).2.2 = true) :
    ∃ j, j < i ∧ j < (runFSM ad (FallLogicFSM.init cfg fps) inputs).length ∧
      ((runFSM ad (FallLogicFSM.init cfg fps) inputs).getD j d).1.state = FsmMode.idle ∧
      ((runFSM ad (FallLogicFSM.init cfg fps) inputs).getD j d).2.1.state = FsmMode.awaitStill ∧
      predA ((runFSM ad (FallLogicFSM.init cfg fps) inputs).getD j d).1.cfg
        (max ((runFSM ad (FallLogicFSM.init cfg fps) inputs).getD j d).1.infer_fps 1)
        ((runFSM ad (FallLogicFSM.init cfg fps) inputs).getD j d).2.1.history = true ∧
      predB ((runFSM ad (FallLogicFSM.init cfg fps) inputs).getD j d).1.cfg
        (max ((runFSM ad (FallLogicFSM.init cfg fps) inputs).getD j d).1.infer_fps 1)
        ((runFSM ad (FallLogicFSM.init cfg fps) inputs).getD j d).2.1.history = true ∧
      predD ((runFSM ad (FallLogicFSM.init cfg fps) inputs).getD j d).1.cfg
        ((runFSM ad (FallLogicFSM.init cfg fps) inputs).getD j d).2.1.history = true := by
  rcases runFSM_trig_latch ad (FallLogicFSM.init cfg fps) inputs i d hi htrig with h | h
  · exact h
  · rw [show (FallLogicFSM.init cfg fps).state = FsmMode.idle from rfl] at h
    exact absurd h (by decide)

/-- Claim C1 witness: the three-tick fall run triggers at tick 2, and the
latch (A, B, D) happened at the earlier tick 1. -/
theorem trigger_has_latch_witness :
    2 < (runFSM flatAngle (FallLogicFSM.init testCfg 1) testFsmInputs).length ∧
    ((runFSM flatAngle (FallLogicFSM.init testCfg 1) testFsmInputs).getD 2 dummyStep).2.2 = true ∧
    ∃ j, j < 2 ∧ j < (runFSM flatAngle (FallLogicFSM.init testCfg 1) testFsmInputs).length ∧
      ((runFSM flatAngle (FallLogicFSM.init testCfg 1) testFsmInputs).getD j dummyStep).1.state = FsmMode.idle ∧
      ((runFSM flatAngle (FallLogicFSM.init testCfg 1) testFsmInputs).getD j dummyStep).2.1.state = FsmMode.awaitStill ∧
      predA ((runFSM flatAngle (FallLogicFSM.init testCfg 1) testFsmInputs).getD j dummyStep).1.cfg
        (max ((runFSM flatAngle (FallLogicFSM.init testCfg 1) testFsmInputs).getD j dummyStep).1.infer_fps 1)
        ((runFSM flatAngle (FallLogicFSM.init testCfg 1) testFsmInputs).getD j dummyStep).2.1.history = true ∧
      predB ((runFSM flatAngle (FallLogicFSM.init testCfg 1) testFsmInputs).getD j dummyStep).1.cfg
        (max ((runFSM flatAngle (FallLogicFSM.init testCfg 1) testFsmInputs).getD j dummyStep).1.infer_fps 1)
        ((runFSM flatAngle (FallLogicFSM.init testCfg 1) testFsmInputs).getD j dummyStep).2.1.history = true ∧
      predD ((runFSM flatAngle (FallLogicFSM.init testCfg 1) testFsmInputs).getD j dummyStep).1.cfg
        ((runFSM flatAngle (FallLogicFSM.init testCfg 1) testFsmInputs).getD j dummyStep).2.1.history = true :=
  ⟨by decide, by decide,
   trigger_has_latch flatAngle testCfg 1 testFsmInputs 2 dummyStep (by decide) (by decide)⟩

/-- Claim C1 counterexample: in the three-tick run a trigger fires at tick 2
(`t = 100`), yet every earlier tick on which A, B and D all held (only tick
1, `t = 1`) lies 99 seconds before it — far beyond
`T_still + C_grace = 1.6` — because the intervening ticks never ran the
deadline give-up. -/
theorem trigger_latch_time_cex :
    ((runFSM flatAngle (FallLogicFSM.init testCfg 1) testFsmInputs).getD 2 dummyStep).2.2 = true ∧
    ∀ j, j < 2 →
      (predA ((runFSM flatAngle (FallLogicFSM.init testCfg 1) testFsmInputs).getD j dummyStep).1.cfg
          (max ((runFSM flatAngle (FallLogicFSM.init testCfg 1) testFsmInputs).getD j dummyStep).1.infer_fps 1)
          ((runFSM flatAngle (FallLogicFSM.init testCfg 1) testFsmInputs).getD j dummyStep).2.1.history &&
       predB ((runFSM flatAngle (FallLogicFSM.init testCfg 1) testFsmInputs).getD j dummyStep).1.cfg
          (max ((runFSM flatAngle (FallLogicFSM.init testCfg 1) testFsmInputs).getD j dummyStep).1.infer_fps 1)
          ((runFSM flatAngle (FallLogicFSM.init testCfg 1) testFsmInputs).getD j dummyStep).2.1.history &&
       predD ((runFSM flatAngle (FallLogicFSM.init testCfg 1) testFsmInputs).getD j dummyStep).1.cfg
          ((runFSM flatAngle (FallLogicFSM.init testCfg 1) testFsmInputs).getD j dummyStep).2.1.history) = true →
      ¬ ((testFsmInputs.getD 2 (0, none)).1 - (testFsmInputs.getD j (0, none)).1 ≤
          testCfg.T_still_sec + testCfg.C_grace_sec) := by
  decide

/-- Claim C2 (code bug): `main.py` appends the frame to the rolling history
(line 128) BEFORE calling `fsm.update` (line 174), so on the trigger tick
the trigger frame (index 2 here) is the LAST entry of `pre_list`, with
`t_rel_ms = 0`, and the collected post list starts with the NEXT tick's
frame (index 3) — contradicting the claim and the code's own comment at
`main.py` line 143 ("frames collected (includes the trigger frame as
first)").  The final conjuncts pin the completion tick down: the event
finishes on tick 4 and `fsm.update` runs again on that same tick (the FSM
history grows from 3 to 4 while the cooldown set at the trigger holds). -/
theorem trigger_frame_in_pre :
    (loopRun flatAngle 2 2 1 (LoopState.start testCfg 2 1) (testLoopInputs.take 3)).collecting =
      some { pre := [(⟨1⟩, some (mkPose 100)), (⟨2⟩, some (mkPose 100))], frames := [],
             need_post := 2, t0_index := 2 } ∧
    ((loopRun flatAngle 2 2 1 (LoopState.start testCfg 2 1) (testLoopInputs.take 4)).collecting.map
      (fun c => c.frames.map (fun fp => fp.1.index))) = some [3] ∧
    ((loopRun flatAngle 2 2 1 (LoopState.start testCfg 2 1) testLoopInputs).completed.map
      (fun ev => ev.map (fun f => (f.1.index, f.2.1)))) =
      [[(1, -1000), (2, 0), (3, 1000), (4, 2000)]] ∧
    (loopRun flatAngle 2 2 1 (LoopState.start testCfg 2 1) (testLoopInputs.take 4)).fsm.history.length = 3 ∧
    (loopRun flatAngle 2 2 1 (LoopState.start testCfg 2 1) testLoopInputs).fsm.history.length = 4 ∧
    (loopRun flatAngle 2 2 1 (LoopState.start testCfg 2 1) testLoopInputs).collecting = none := by
  decide

theorem heapGet_heapSet_self (h : Heap) (a : ℕ) (d e : PyDict)
    (hsome : heapGet h a = some e) : heapGet (heapSet h a d) a = some d := by
  induction h with
  | nil => simp [heapGet] at hsome
  | cons he rest ih =>
    obtain ⟨b, f⟩ := he
    by_cases hb : b = a
    · simp only [heapSet, heapGet, if_pos hb]
    · simp only [heapSet, heapGet, if_neg hb] at hsome ⊢
      exact ih hsome

theorem heapGet_heapSet_ne (h : Heap) (a b : ℕ) (d : PyDict) (hne : b ≠ a) :
    heapGet (heapSet h a d) b = heapGet h b := by
  induction h with
  | nil => rfl
  | cons he rest ih =>
    obtain ⟨c, f⟩ := he
    by_cases hc : c = a
    · have hcb : ¬ c = b := by
        rw [hc]
        exact fun hx => hne hx.symm
      simp only [heapSet, heapGet, if_pos hc, if_neg hcb]
      exact ih
    · by_cases hcb : c = b
      · simp only [heapSet, heapGet, if_neg hc, if_pos hcb]
      · simp only [heapSet, heapGet, if_neg hc, if_neg hcb]
        exact ih

theorem dictGet_dictPop (d : PyDict) (k : String) : dictGet (dictPop d k) k = none := by
  induction d with
  | nil => rfl
  | cons kv rest ih =>
    obtain ⟨k2, v⟩ := kv
    by_cases hk : k2 = k
    · simp only [dictPop, if_pos hk]
      exact ih
    · simp only [dictPop, dictGet, if_neg hk]
      exact ih

/-- Claim C10 (confirmed): `serialize_json` with `redact = true` mutates its
caller's data: the shallow copy shares the nested `"system"` dict, so
popping `"host"` removes it from the original object graph — after the
call, the caller's dict still points to the same `"system"` dict, and that
dict no longer has a `"host"` key. -/
theorem serializeJson_redact_mutates (h : Heap) (dAddr a fresh1 fresh2 : ℕ)
    (d0 sysd : PyDict) (hostv : PyRef)
    (hd : heapGet h dAddr = some d0)
    (hsys : dictGet d0 "system" = some (PyRef.addr a))
    (hhost : heapGet h a = some sysd)
    (hmem : dictGet sysd "host" = some hostv)
    (hne1 : a ≠ fresh1) (hne2 : dAddr ≠ fresh1) (hne3 : dAddr ≠ a) :
    ∃ hp, serializeJson h dAddr true fresh1 fresh2 = some (hp, fresh1) ∧
      heapGet hp dAddr = some d0 ∧
      heapGet hp a = some (dictPop sysd "host") ∧
      dictGet (dictPop sysd "host") "host" = none := by
  have hget1 : heapGet ((fresh1, d0) :: h) a = some sysd := by
    have : ¬ fresh1 = a := fun hx => hne1 hx.symm
    simp only [heapGet, if_neg this]
    exact hhost
  have hstep : serializeJson h dAddr true fresh1 fresh2 =
      some (heapSet (heapSet ((fresh1, d0) :: h) a (dictPop sysd "host")) fresh1
              (dictSet d0 "system" (PyRef.addr a)), fresh1) := by
    simp [serializeJson, hd, hsys, hget1]
  refine ⟨_, hstep, ?_, ?_, dictGet_dictPop sysd "host"⟩
  · rw [heapGet_heapSet_ne _ fresh1 dAddr _ hne2, heapGet_heapSet_ne _ a dAddr _ hne3]
    have : ¬ fresh1 = dAddr := fun hx => hne2 hx.symm
    simp only [heapGet, if_neg this]
    exact hd
  · rw [heapGet_heapSet_ne _ fresh1 a _ hne1]
    exact heapGet_heapSet_self _ a _ sysd hget1

/-- Claim C10 witness: the concrete two-dict heap `testHeap`; after the
redacting call, the original metadata dict at address 0 still references the
`system` dict at address 1, which has lost its `"host"` entry. -/
theorem serializeJson_redact_mutates_witness :
    heapGet testHeap 0 = some mainDict ∧
    dictGet mainDict "system" = some (PyRef.addr 1) ∧
    heapGet testHeap 1 = some sysDict ∧
    dictGet sysDict "host" = some (PyRef.atom "h1") ∧
    ∃ hp, serializeJson testHeap 0 true 2 3 = some (hp, 2) ∧
      heapGet hp 0 = some mainDict ∧
      heapGet hp 1 = some (dictPop sysDict "host") ∧
      dictGet (dictPop sysDict "host") "host" = none :=
  ⟨by decide, by decide, by decide, by decide,
   serializeJson_redact_mutates testHeap 0 1 2 3 mainDict sysDict (PyRef.atom "h1")
     (by decide) (by decide) (by decide) (by decide)
     (by decide) (by decide) (by decide)⟩
